import Mathlib

/-!
Verification development for the StratisQL document-over-SQL layer.

The definitions below are a shallow embedding of the TypeScript sources:
the predicate compiler (src/utils/helpers.ts), the update compiler and
CRUD verbs (src/crud/crud.ts), the unwind stage of the aggregation
pipeline (src/aggregate/aggregate.ts) and the transaction wrapper
(withTransaction).  JavaScript objects are modelled as ordered
association lists, JavaScript arrays held in documents as mutable heap
cells (so that reference sharing and in-place mutation are observable),
and thrown exceptions as the error case of Except.
-/

/-- A single quote character, used when assembling SQL text. -/
def qm : String := "\x27"

/-- A JSON-like value appearing in a filter.  Filters are read-only, so
arrays and nested objects are kept inline (reference identity never
matters for them in the compiler). -/
inductive FV where
  | num (n : Int)
  | str (s : String)
  | bool (b : Bool)
  | null
  | list (vs : List FV)
  | map (kvs : List (String × FV))

mutual

/-- Recursion potential of a filter value: counts the nesting mass of
maps and lists.  Used as part of the termination measure of the
predicate compiler, which recurses into nested filters. -/
def pot : FV → Nat
  | .map kvs => 1 + potEntries kvs
  | .list vs => 1 + potList vs
  | _ => 0

/-- Sum of the potentials of the values of an association list. -/
def potEntries : List (String × FV) → Nat
  | [] => 0
  | (_, v) :: r => pot v + potEntries r

/-- Sum of the potentials of the elements of a list. -/
def potList : List FV → Nat
  | [] => 0
  | v :: r => pot v + potList r

end

/-- The entries a JavaScript for..in loop visits on a value: the own
enumerable keys of an object, the indices of an array, the indices of a
string (whose values are one-character strings), and nothing for other
primitives or null. -/
def toEntries : FV → List (String × FV)
  | .map kvs => kvs
  | .list vs => vs.enum.map (fun p => (toString p.1, p.2))
  | .str s => s.data.enum.map (fun p => (toString p.1, FV.str (String.singleton p.2)))
  | _ => []

theorem potEntries_map_enum (vs : List FV) :
    ∀ n, potEntries ((List.enumFrom n vs).map (fun p => (toString p.1, p.2))) = potList vs := by
  induction vs with
  | nil => intro n; rfl
  | cons v r ih => intro n; simp only [List.enumFrom, List.map, potEntries, potList, ih]

theorem potEntries_str_enum (l : List (Nat × Char)) :
    potEntries (l.map (fun p => (toString p.1, FV.str (String.singleton p.2)))) = 0 := by
  induction l with
  | nil => rfl
  | cons p r ih => simp only [List.map, potEntries, ih, pot]

/-- The for..in entries of a value carry no more potential than the
value itself. -/
theorem potEntries_toEntries_le (v : FV) : potEntries (toEntries v) ≤ pot v := by
  cases v with
  | map kvs => simp [toEntries, pot]
  | list vs => simp [toEntries, pot, List.enum, potEntries_map_enum]
  | str s => simp [toEntries, pot, List.enum, potEntries_str_enum]
  | num n => simp [toEntries, potEntries]
  | bool b => simp [toEntries, potEntries]
  | null => simp [toEntries, potEntries]

/-- For maps and lists the for..in entries have strictly smaller
potential. -/
theorem potEntries_toEntries_lt_map (kvs : List (String × FV)) :
    potEntries (toEntries (FV.map kvs)) < pot (FV.map kvs) := by
  simp [toEntries, pot]

theorem potEntries_toEntries_lt_list (vs : List FV) :
    potEntries (toEntries (FV.list vs)) < pot (FV.list vs) := by
  simp [toEntries, pot, List.enum, potEntries_map_enum]

theorem potList_mem_le {v : FV} {vs : List FV} (h : v ∈ vs) : pot v ≤ potList vs := by
  induction vs with
  | nil => cases h
  | cons w r ih =>
    rcases List.mem_cons.mp h with h1 | h2
    · subst h1; simp [potList]
    · have := ih h2; simp [potList]; omega


/-- Lexicographic step on pairs of naturals: weak first component,
strict second. -/
theorem lexLe {a b c d : Nat} (h1 : a ≤ c) (h2 : b < d) :
    Prod.Lex (· < ·) (· < ·) (a, b) (c, d) := by
  rcases Nat.lt_or_ge a c with h | h
  · exact Prod.Lex.left _ _ h
  · have he : a = c := Nat.le_antisymm h1 h
    subst he
    exact Prod.Lex.right _ h2

/-- Lexicographic step on pairs of naturals: strict first component. -/
theorem lexLt {a b c d : Nat} (h : a < c) :
    Prod.Lex (· < ·) (· < ·) (a, b) (c, d) :=
  Prod.Lex.left _ _ h

/-- Path extraction expression for a document field, per dialect
(parseKey in src/utils/helpers.ts). -/
def parseKey (dialect key : String) : String :=
  if dialect = "postgres" then
    "data->>" ++ qm ++ key ++ qm
  else
    "JSON_UNQUOTE(JSON_EXTRACT(data, " ++ qm ++ "$." ++ key ++ qm ++ "))"

/-- Sequence a list of fallible results, stopping at the first error
(the way a thrown exception aborts an Array.map). -/
def sequenceE {α : Type} : List (Except Unit α) → Except Unit (List α)
  | [] => .ok []
  | x :: xs =>
    match x with
    | .error e => .error e
    | .ok a =>
      match sequenceE xs with
      | .error e => .error e
      | .ok rest => .ok (a :: rest)


/-- Map over the success value of a fallible result. -/
def exMap {a b : Type} (f : a → b) : Except Unit a → Except Unit b
  | .error e => .error e
  | .ok x => .ok (f x)

/-- Run two fallible steps in order and append their clause and
parameter contributions (the way consecutive loop iterations push onto
the shared clauses and params arrays). -/
def seqAppend (x y : Except Unit (List String × List FV)) :
    Except Unit (List String × List FV) :=
  match x with
  | .error e => .error e
  | .ok (cs, ps) =>
    match y with
    | .error e => .error e
    | .ok (cs2, ps2) => .ok (cs ++ cs2, ps ++ ps2)

/-- Parenthesize and join recursively compiled combinator branches with
a boolean operator.  Note the recursively compiled parameter lists are
dropped: the source destructures only the clause. -/
def joinWrap (sep : String) (r : Except Unit (List (List String × List FV))) :
    Except Unit (List String × List FV) :=
  exMap (fun subs =>
    (["(" ++ String.intercalate sep
        (subs.map (fun p => "(" ++ String.intercalate " AND " p.1 ++ ")")) ++ ")"], []))
    r

/-- Wrap a recursively compiled negated filter; its parameter list is
dropped as well. -/
def notWrap (r : Except Unit (List String × List FV)) :
    Except Unit (List String × List FV) :=
  exMap (fun p => (["NOT (" ++ String.intercalate " AND " p.1 ++ ")"], [])) r

/-- A field condition contributes its clause only when nonempty, but
its parameters unconditionally. -/
def condWrap (r : Except Unit (String × List FV)) :
    Except Unit (List String × List FV) :=
  exMap (fun p => ((if p.1 ≠ "" then [p.1] else []), p.2)) r

mutual

/-- The for..in loop of buildWhereClause (src/utils/helpers.ts lines
78-98) over the entries of a filter object: the clause strings pushed
and the parameters pushed, in push order. -/
def buildEntries (dialect : String) (l : List (String × FV)) :
    Except Unit (List String × List FV) :=
  match l with
  | [] => .ok ([], [])
  | (key, v) :: rest => seqAppend (entryStep dialect key v) (buildEntries dialect rest)
termination_by (potEntries l, 2 * l.length)
decreasing_by
all_goals apply lexLe
all_goals try simp only [potEntries, List.length_cons]
all_goals omega

/-- One entry of the filter: the combinator dispatch of
buildWhereClause. -/
def entryStep (dialect key : String) (v : FV) : Except Unit (List String × List FV) :=
  match v with
  | .list elems =>
    if key = "$or" then
      joinWrap " OR " (sequenceE (elems.attach.map (fun e => buildEntries dialect (toEntries e.1))))
    else if key = "$and" then
      joinWrap " AND " (sequenceE (elems.attach.map (fun e => buildEntries dialect (toEntries e.1))))
    else if key = "$not" then
      notWrap (buildEntries dialect (toEntries (FV.list elems)))
    else
      condWrap (parseCondition dialect key (FV.list elems))
  | .map kvs =>
    if key = "$not" then notWrap (buildEntries dialect kvs)
    else condWrap (parseCondition dialect key (FV.map kvs))
  | .null =>
    if key = "$not" then notWrap (buildEntries dialect (toEntries FV.null))
    else condWrap (parseCondition dialect key FV.null)
  | w => condWrap (parseCondition dialect key w)
termination_by (pot v, 1)
decreasing_by
all_goals first
  | (apply lexLt
     have h1 := potEntries_toEntries_le e.1
     have h2 := potList_mem_le e.2
     simp only [pot]
     omega)
  | (apply lexLt
     have h1 := potEntries_toEntries_lt_list elems
     omega)
  | (apply lexLt
     have h1 := potEntries_toEntries_lt_map kvs
     simp only [toEntries] at h1
     omega)
  | (apply lexLe <;> simp [toEntries, potEntries, pot])

/-- parseCondition from src/utils/helpers.ts: a nested operator map is
compiled operator by operator; any other value compiles to an equality
comparison whose operand is pushed onto the parameter list. -/
def parseCondition (dialect key : String) (v : FV) : Except Unit (String × List FV) :=
  match v with
  | .map ops => exMap (fun p => (String.intercalate " AND " p.1, p.2)) (parseOps dialect key ops)
  | w => .ok (parseKey dialect key ++ " = ?", [w])
termination_by (pot v, 0)
decreasing_by
  apply lexLt
  simp [pot]

/-- The for..in loop over the operators of a nested operator map. -/
def parseOps (dialect key : String) (ops : List (String × FV)) :
    Except Unit (List String × List FV) :=
  match ops with
  | [] => .ok ([], [])
  | (op, w) :: rest => seqAppend (opStep dialect key op w) (parseOps dialect key rest)
termination_by (potEntries ops, 2 * ops.length)
decreasing_by
all_goals apply lexLe
all_goals try simp only [potEntries, List.length_cons]
all_goals omega

/-- One operator of a nested operator map: the switch statement of
parseCondition.  An unrecognized operator contributes nothing; a
set-membership operator with a non-array operand throws (.map is called
on the operand in the source). -/
def opStep (dialect key op : String) (w : FV) : Except Unit (List String × List FV) :=
  if op = "$eq" then .ok ([parseKey dialect key ++ " = ?"], [w])
  else if op = "$ne" then .ok ([parseKey dialect key ++ " <> ?"], [w])
  else if op = "$gt" then .ok ([parseKey dialect key ++ " > ?"], [w])
  else if op = "$gte" then .ok ([parseKey dialect key ++ " >= ?"], [w])
  else if op = "$lt" then .ok ([parseKey dialect key ++ " < ?"], [w])
  else if op = "$lte" then .ok ([parseKey dialect key ++ " <= ?"], [w])
  else if op = "$in" then
    match w with
    | .list vs =>
      .ok ([parseKey dialect key ++ " IN (" ++
        String.intercalate ", " (vs.map (fun _ => "?")) ++ ")"], vs)
    | _ => .error ()
  else if op = "$nin" then
    match w with
    | .list vs =>
      .ok ([parseKey dialect key ++ " NOT IN (" ++
        String.intercalate ", " (vs.map (fun _ => "?")) ++ ")"], vs)
    | _ => .error ()
  else if op = "$not" then
    exMap (fun p => (["NOT (" ++ p.1 ++ ")"], p.2)) (parseCondition dialect key w)
  else .ok ([], [])
termination_by (pot w, 1)
decreasing_by
  apply lexLe <;> omega

end

/-- buildWhereClause from src/utils/helpers.ts: compiles a filter
object into a WHERE clause string and a positional parameter list.  An
error models a thrown TypeError. -/
def buildWhereClause (filter : List (String × FV)) (dialect : String) :
    Except Unit (String × List FV) :=
  match buildEntries dialect filter with
  | .error e => .error e
  | .ok (cs, ps) => .ok (String.intercalate " AND " cs, ps)

/-- Number of positional placeholders in a clause string. -/
def countPlaceholders (s : String) : Nat := s.data.count '?'

/-- A value held in a document field.  JavaScript arrays are mutable
reference values: a field holds a reference into a heap of array cells,
so that the sharing created by a shallow copy, and in-place mutation
through a shared reference, are observable in the model. -/
inductive DVal where
  | num (n : Int)
  | str (s : String)
  | bool (b : Bool)
  | null
  | arrRef (id : Nat)
deriving DecidableEq, Repr

/-- The heap of array cells. -/
abbrev Heap := List (List DVal)

/-- A document: an ordered mapping from field names to values. -/
abbrev Doc := List (String × DVal)

/-- Read a field of a document (property access). -/
def getField : Doc → String → Option DVal
  | [], _ => none
  | (k0, v) :: rest, k => if k0 = k then some v else getField rest k

/-- Write a field of a document: replaces the binding in place when the
key is present and appends it otherwise, matching both property
assignment and object spread with an overriding key. -/
def setField : Doc → String → DVal → Doc
  | [], k, v => [(k, v)]
  | (k0, v0) :: rest, k, v =>
    if k0 = k then (k0, v) :: rest else (k0, v0) :: setField rest k v

/-- Contents of an array cell (indexing the heap). -/
def heapGet (h : Heap) (id : Nat) : List DVal := h.getD id []

/-- Append an element to an array cell in place (Array.prototype.push). -/
def heapPush : Heap → Nat → DVal → Heap
  | [], _, _ => []
  | c :: rest, 0, v => (c ++ [v]) :: rest
  | c :: rest, n + 1, v => c :: heapPush rest n v

/-- JavaScript strict equality on our value universe: value equality on
primitives, reference identity on arrays. -/
def strictEq (a b : DVal) : Bool := a == b

/-- JavaScript falsiness of a value. -/
def jsFalsy : DVal → Bool
  | .num n => n == 0
  | .str s => s == ""
  | .bool b => !b
  | .null => true
  | .arrRef _ => false

/-- The expression (x || 0) applied to a possibly absent field value. -/
def jsOr0 : Option DVal → DVal
  | none => .num 0
  | some v => if jsFalsy v then .num 0 else v

/-- Numeric coercion of a non-string primitive. -/
def jsToNum : DVal → Int
  | .num n => n
  | .bool b => if b then 1 else 0
  | _ => 0

/-- String rendering of a value, with array cells joined by commas the
way Array.prototype.toString renders them (null elements render empty).
The fuel bounds reference-chasing depth; it is irrelevant on the flat
arrays the claims exercise. -/
def jsStrV (h : Heap) : Nat → DVal → String
  | _, .num n => toString n
  | _, .str s => s
  | _, .bool b => if b then "true" else "false"
  | _, .null => "null"
  | 0, .arrRef _ => ""
  | fuel + 1, .arrRef id =>
    String.intercalate ","
      ((heapGet h id).map (fun v =>
        match v with
        | .null => ""
        | w => jsStrV h fuel w))

/-- JavaScript addition on our value universe: string concatenation when
either operand renders as a string, numeric addition otherwise. -/
def jsAdd (h : Heap) (a b : DVal) : DVal :=
  match a, b with
  | .str s, c => .str (s ++ jsStrV h h.length c)
  | c, .str s => .str (jsStrV h h.length c ++ s)
  | .arrRef i, c => .str (jsStrV h h.length (.arrRef i) ++ jsStrV h h.length c)
  | c, .arrRef i => .str (jsStrV h h.length c ++ jsStrV h h.length (.arrRef i))
  | a, b => .num (jsToNum a + jsToNum b)

/-- The per-operator field mapping of an update specification. -/
abbrev Payload := List (String × DVal)

/-- An update specification as the JavaScript object the caller built:
an ordered association of operator names to field mappings. -/
abbrev RawUpdate := List (String × Payload)

/-- Property access on the update object (update.$set and friends read
the binding of an operator name irrespective of its position). -/
def getOp : RawUpdate → String → Option Payload
  | [], _ => none
  | (k0, p) :: rest, k => if k0 = k then some p else getOp rest k

/-- Field replacement: object spread of the operand mapping over the
snapshot. -/
def applySet (d : Doc) (s : Payload) : Doc :=
  s.foldl (fun d kv => setField d kv.1 kv.2) d

/-- Numeric increment: field = (field || 0) + operand, per named field. -/
def applyInc (h : Heap) (d : Doc) (incs : Payload) : Doc :=
  incs.foldl (fun d kv => setField d kv.1 (jsAdd h (jsOr0 (getField d kv.1)) kv.2)) d

/-- Array append: when the field does not hold an array it is first
replaced by a fresh empty array; the operand is then pushed in place
onto the (possibly shared) array cell. -/
def applyPush (h : Heap) (d : Doc) (ps : Payload) : Heap × Doc :=
  ps.foldl
    (fun acc kv =>
      match getField acc.2 kv.1 with
      | some (.arrRef id) => (heapPush acc.1 id kv.2, acc.2)
      | _ =>
        let id := acc.1.length
        let h2 := acc.1 ++ [[]]
        let d2 := setField acc.2 kv.1 (.arrRef id)
        (heapPush h2 id kv.2, d2))
    (h, d)

/-- One step of the removal loop: a field holding an array is replaced
by a freshly allocated filtered copy (Array.prototype.filter returns a
new array); other fields are left untouched. -/
def pullStep (acc : Heap × Doc) (kv : String × DVal) : Heap × Doc :=
  match getField acc.2 kv.1 with
  | some (.arrRef id) =>
    let filtered := (heapGet acc.1 id).filter (fun v => !(strictEq v kv.2))
    (acc.1 ++ [filtered], setField acc.2 kv.1 (.arrRef acc.1.length))
  | _ => acc

/-- Array element removal, over the named fields of the operand. -/
def applyPull (h : Heap) (d : Doc) (ps : Payload) : Heap × Doc :=
  ps.foldl pullStep (h, d)

/-- applyUpdateOperators from src/crud/crud.ts lines 184-210: a shallow
copy of the document (updated = doc with all array references shared),
then the four operators applied in the fixed source order, each read by
name from the update object. -/
def applyUpdateOperators (h : Heap) (doc : Doc) (u : RawUpdate) : Heap × Doc :=
  let updated := doc
  let updated :=
    match getOp u "$set" with
    | some s => applySet updated s
    | none => updated
  let updated :=
    match getOp u "$inc" with
    | some incs => applyInc h updated incs
    | none => updated
  let hu :=
    match getOp u "$push" with
    | some ps => applyPush h updated ps
    | none => (h, updated)
  let hu2 :=
    match getOp u "$pull" with
    | some ps => applyPull hu.1 hu.2 ps
    | none => hu
  hu2

/-- One-level observation of a field value: arrays are read through
their reference to the current cell contents. -/
inductive ValObs where
  | scalar (v : DVal)
  | arr (elems : List DVal)
deriving DecidableEq, Repr

/-- Observe a value in a heap. -/
def derefValue (h : Heap) : DVal → ValObs
  | .arrRef id => .arr (heapGet h id)
  | v => .scalar v

/-- Observe a whole document in a heap: what a caller reading the
document (and the arrays it holds) sees. -/
def derefDoc (h : Heap) (d : Doc) : List (String × ValObs) :=
  d.map (fun kv => (kv.1, derefValue h kv.2))

/-- All array references of a document point into the heap. -/
def docWF (h : Heap) (d : Doc) : Bool :=
  d.all (fun kv =>
    match kv.2 with
    | .arrRef id => decide (id < h.length)
    | _ => true)

/-- Strip one leading dollar sign from an unwind stage operand
(stage.$unwind.replace of the leading dollar in aggregate.ts). -/
def stripDollar (s : String) : String :=
  if s.startsWith "$" then s.drop 1 else s

/-- One unwind stage over the decoded result sequence (aggregate.ts
lines 99-114): the imperative accumulator loop.  A document whose field
holds an array is replaced by one copy per element, the field set to
the element; any other document is pushed through unchanged. -/
def unwindStep (h : Heap) (path : String) (unwound : List Doc) (d : Doc) : List Doc :=
  match getField d path with
  | some (.arrRef id) => unwound ++ (heapGet h id).map (fun v => setField d path v)
  | _ => unwound ++ [d]

/-- One unwind stage: the loop body applied to every decoded document,
starting from an empty accumulator. -/
def unwindStage (h : Heap) (path : String) (result : List Doc) : List Doc :=
  result.foldl (unwindStep h path) []

/-- The external relational engine as the CRUD verbs see it: the set of
existing tables and the rows a SELECT returns, already decoded to
documents (serialization round-tripping is modelled as the identity). -/
structure Engine where
  dialect : String
  tables : List String
  exec : String → List FV → List Doc

/-- An issued parameterized statement. -/
abbrev Query := String × List FV

/-- The options find reads (limit, skip, sort). -/
structure FindOptions where
  limit : Option Int
  skip : Option Int
  sort : Option (List (String × Int))

/-- One ORDER BY fragment of find (always the MySQL extraction form in
the source, regardless of dialect). -/
def sortFieldSql (k : String) (v : Int) : String :=
  "JSON_UNQUOTE(JSON_EXTRACT(data, " ++ qm ++ "$." ++ k ++ qm ++ ")) " ++
    (if v = 1 then "ASC" else "DESC")

/-- The SELECT statement find assembles (crud.ts lines 60-69), given
the compiled WHERE clause.  Falsy limit and skip values (0) append
nothing, matching the truthiness guards in the source. -/
def findSql (collection : String) (clause : String) (opts : FindOptions) : String :=
  let sql := "SELECT data FROM `" ++ collection ++ "`"
  let sql := if clause ≠ "" then sql ++ " WHERE " ++ clause else sql
  let sql :=
    match opts.sort with
    | some entries =>
      let sortFields := entries.map (fun kv => sortFieldSql kv.1 kv.2)
      if sortFields.length ≠ 0 then sql ++ " ORDER BY " ++ String.intercalate ", " sortFields
      else sql
    | none => sql
  let sql :=
    match opts.limit with
    | some n => if n ≠ 0 then sql ++ " LIMIT " ++ toString n else sql
    | none => sql
  let sql :=
    match opts.skip with
    | some n => if n ≠ 0 then sql ++ " OFFSET " ++ toString n else sql
    | none => sql
  sql

/-- find (crud.ts lines 58-72): empty result without touching the
engine when the backing table is missing; otherwise compile the filter,
issue one SELECT and decode its rows.  The second component records the
row-level statements issued. -/
def findOp (e : Engine) (collection : String) (filter : List (String × FV))
    (opts : FindOptions) : Except Unit (List Doc × List Query) :=
  if collection ∈ e.tables then
    match buildWhereClause filter e.dialect with
    | .error er => .error er
    | .ok (clause, params) =>
      let sql := findSql collection clause opts
      .ok (e.exec sql params, [(sql, params)])
  else .ok ([], [])

/-- countDocuments (crud.ts lines 144-151): zero without touching the
engine when the backing table is missing; otherwise one COUNT query,
reading rows[0]?.count || 0. -/
def countOp (e : Engine) (collection : String) (filter : List (String × FV)) :
    Except Unit (DVal × List Query) :=
  if collection ∈ e.tables then
    match buildWhereClause filter e.dialect with
    | .error er => .error er
    | .ok (clause, params) =>
      let sql := "SELECT COUNT(*) as count FROM `" ++ collection ++ "`"
      let sql := if clause ≠ "" then sql ++ " WHERE " ++ clause else sql
      let rows := e.exec sql params
      let cnt :=
        match rows.head? with
        | some r => jsOr0 (getField r "count")
        | none => DVal.num 0
      .ok (cnt, [(sql, params)])
  else .ok (.num 0, [])

/-- JSON serialization of a document value (JSON.stringify); the fuel
bounds reference-chasing depth and is irrelevant on flat arrays. -/
def dvalToFV (h : Heap) : Nat → DVal → FV
  | _, .num n => .num n
  | _, .str s => .str s
  | _, .bool b => .bool b
  | _, .null => .null
  | 0, .arrRef _ => .null
  | fuel + 1, .arrRef id => .list ((heapGet h id).map (dvalToFV h fuel))

/-- JSON serialization of a whole document. -/
def serializeDoc (h : Heap) (d : Doc) : FV :=
  .map (d.map (fun kv => (kv.1, dvalToFV h h.length kv.2)))

/-- The per-row UPDATE statement of updateOne and updateMany. -/
def updateSql (collection : String) : String :=
  "UPDATE `" ++ collection ++ "` SET data = ? WHERE JSON_EXTRACT(data, " ++
    qm ++ "$.id" ++ qm ++ ") = ?"

/-- The per-row DELETE statement of deleteMany. -/
def deleteSql (collection : String) : String :=
  "DELETE FROM `" ++ collection ++ "` WHERE JSON_EXTRACT(data, " ++
    qm ++ "$.id" ++ qm ++ ") = ?"

/-- The identity-field parameter of a per-row statement ((doc as
any).id; an absent field is passed as null). -/
def idParam (h : Heap) (d : Doc) : FV :=
  match getField d "id" with
  | some v => dvalToFV h h.length v
  | none => FV.null

/-- The loop guard (limit && counter >= limit) of updateMany and
deleteMany. -/
def breakCond (lim : Option Int) (counter : Nat) : Bool :=
  match lim with
  | some n => decide (n ≠ 0) && decide (n ≤ (counter : Int))
  | none => false

/-- The per-row loop of updateMany (crud.ts lines 106-113): apply the
update compiler to each found snapshot and issue one UPDATE per row,
stopping early at the loop guard. -/
def updateLoop (collection : String) (u : RawUpdate) (lim : Option Int) :
    List Doc → Heap → Nat → Heap × List Query × Nat
  | [], h, modified => (h, [], modified)
  | doc :: rest, h, modified =>
    if breakCond lim modified then (h, [], modified)
    else
      let hu := applyUpdateOperators h doc u
      let q := (updateSql collection, [serializeDoc hu.1 hu.2, idParam hu.1 doc])
      let r := updateLoop collection u lim rest hu.1 (modified + 1)
      (r.1, q :: r.2.1, r.2.2)

/-- The result shape of updateMany. -/
structure UpdateResult where
  acknowledged : Bool
  matchedCount : Nat
  modifiedCount : Nat
deriving DecidableEq, Repr

/-- The options updateMany receives (limit is read through an any-cast
in the source). -/
structure UpdateOptions where
  upsert : Option Bool
  limit : Option Int

/-- updateMany (crud.ts lines 99-115): zero counts without touching the
engine when the backing table is missing; otherwise re-select the
matching documents and run the per-row update loop. -/
def updateManyOp (e : Engine) (h : Heap) (collection : String)
    (filter : List (String × FV)) (u : RawUpdate) (opts : UpdateOptions) :
    Except Unit (UpdateResult × Heap × List Query) :=
  if collection ∈ e.tables then
    match findOp e collection filter ⟨none, none, none⟩ with
    | .error er => .error er
    | .ok (docs, q1) =>
      if docs.isEmpty then .ok (⟨true, 0, 0⟩, h, q1)
      else
        let r := updateLoop collection u opts.limit docs h 0
        .ok (⟨true, docs.length, r.2.2⟩, r.1, q1 ++ r.2.1)
  else .ok (⟨true, 0, 0⟩, h, [])

/-- The result shape of deleteMany. -/
structure DeleteResult where
  acknowledged : Bool
  deletedCount : Nat
deriving DecidableEq, Repr

/-- The per-row loop of deleteMany (crud.ts lines 131-137). -/
def deleteLoop (collection : String) (h : Heap) (lim : Option Int) :
    List Doc → Nat → List Query × Nat
  | [], deleted => ([], deleted)
  | doc :: rest, deleted =>
    if breakCond lim deleted then ([], deleted)
    else
      let q := (deleteSql collection, [idParam h doc])
      let r := deleteLoop collection h lim rest (deleted + 1)
      (q :: r.1, r.2)

/-- deleteMany (crud.ts lines 127-139): zero counts without touching
the engine when the backing table is missing; otherwise re-select then
issue one DELETE per matched row. -/
def deleteManyOp (e : Engine) (h : Heap) (collection : String)
    (filter : List (String × FV)) (lim : Option Int) :
    Except Unit (DeleteResult × List Query) :=
  if collection ∈ e.tables then
    match findOp e collection filter ⟨none, none, none⟩ with
    | .error er => .error er
    | .ok (docs, q1) =>
      let r := deleteLoop collection h lim docs 0
      .ok (⟨true, r.2⟩, q1 ++ r.1)
  else .ok (⟨true, 0⟩, [])

/-- Assoc update on a filter object ({...filter, [k]: v}). -/
def setFV : List (String × FV) → String → FV → List (String × FV)
  | [], k, v => [(k, v)]
  | (k0, v0) :: rest, k, v =>
    if k0 = k then (k0, v) :: rest else (k0, v0) :: setFV rest k v

/-- The options findWithCursor destructures, before defaulting. -/
structure CursorOptions where
  cursorField : Option String
  cursorValue : Option FV
  limit : Option Int
  reverse : Option Bool
  count : Option Bool
  sort : Option (List (String × Int))
  skip : Option Int

/-- findWithCursor (crud.ts lines 161-179): derive the cursor filter
from the boundary value and direction, delegate to find with the
adjusted options, then report nextCursor as the cursor field of the
last returned document exactly on a full page (data.length === limit).
Result: (data, nextCursor, totalCount, issued queries). -/
def findWithCursorOp (e : Engine) (collection : String)
    (filter : List (String × FV)) (opts : CursorOptions) :
    Except Unit (List Doc × Option DVal × Option DVal × List Query) :=
  let cf := opts.cursorField.getD "id"
  let lim := opts.limit.getD 10
  let rev := opts.reverse.getD false
  let cnt := opts.count.getD false
  let srt := opts.sort.getD [(cf, if rev then -1 else 1)]
  let cursorFilter :=
    match opts.cursorValue with
    | none => filter
    | some FV.null => filter
    | some v => setFV filter cf (FV.map [((if rev then "$lt" else "$gt"), v)])
  match findOp e collection cursorFilter ⟨some lim, opts.skip, some srt⟩ with
  | .error er => .error er
  | .ok (data, q1) =>
    let nextCursor :=
      if (data.length : Int) = lim then data.getLast?.bind (fun d => getField d cf)
      else none
    if cnt then
      match countOp e collection filter with
      | .error er => .error er
      | .ok (c, q2) => .ok (data, nextCursor, some c, q1 ++ q2)
    else .ok (data, nextCursor, none, q1)

/-- The session primitives of the driver, as state transformers (the
model assumes the driver primitives themselves succeed). -/
structure TxDriver (S Sess : Type) where
  startSession : S → Sess × S
  commit : Sess → S → S
  rollback : Sess → S → S
  release : Sess → S → S

/-- withTransaction (src transaction wrapper): start a session, run the
caller-supplied work; on success commit, on a raised failure rollback
and re-raise the same failure; in both cases release the session last
(the finally block). -/
def withTransaction {S Sess E A : Type} (d : TxDriver S Sess)
    (fn : Sess → S → Except E A × S) (s : S) : Except E A × S :=
  let ss := d.startSession s
  match fn ss.1 ss.2 with
  | (.ok a, s2) => (.ok a, d.release ss.1 (d.commit ss.1 s2))
  | (.error e, s2) => (.error e, d.release ss.1 (d.rollback ss.1 s2))

/-- Observable driver events, for instantiating the wrapper with an
event-logging driver. -/
inductive TxEvent where
  | started
  | committed
  | rolledBack
  | released
deriving DecidableEq, Repr

/-- A driver whose state is the list of primitive calls made so far. -/
def logDriver : TxDriver (List TxEvent) Unit :=
  ⟨fun s => ((), s ++ [.started]),
   fun _ s => s ++ [.committed],
   fun _ s => s ++ [.rolledBack],
   fun _ s => s ++ [.released]⟩

/-- The operator names the switch statement of parseCondition
recognizes. -/
def recognizedOps : List String :=
  ["$eq", "$ne", "$gt", "$gte", "$lt", "$lte", "$in", "$nin", "$not"]

/-- The SELECT statement find assembles when the compiled clause is
empty: the same assembly as findSql with no WHERE clause at all. -/
def findSqlNoWhere (collection : String) (opts : FindOptions) : String :=
  let sql := "SELECT data FROM `" ++ collection ++ "`"
  let sql :=
    match opts.sort with
    | some entries =>
      let sortFields := entries.map (fun kv => sortFieldSql kv.1 kv.2)
      if sortFields.length ≠ 0 then sql ++ " ORDER BY " ++ String.intercalate ", " sortFields
      else sql
    | none => sql
  let sql :=
    match opts.limit with
    | some n => if n ≠ 0 then sql ++ " LIMIT " ++ toString n else sql
    | none => sql
  let sql :=
    match opts.skip with
    | some n => if n ≠ 0 then sql ++ " OFFSET " ++ toString n else sql
    | none => sql
  sql

/-- An update specification combining an increment of n on field a with
an append of v to field b. -/
def incPushUpdate (a : String) (n : Int) (b : String) (v : DVal) : RawUpdate :=
  [("$inc", [(a, DVal.num n)]), ("$push", [(b, v)])]

/-- The cleanup events the transaction wrapper appends after the work
function, per outcome. -/
def txTail {E A : Type} (out : Except E A) : List TxEvent :=
  match out with
  | .ok _ => [TxEvent.committed, TxEvent.released]
  | .error _ => [TxEvent.rolledBack, TxEvent.released]

/-- Reading a field just written. -/
theorem getField_setField_self (d : Doc) (k : String) (v : DVal) :
    getField (setField d k v) k = some v := by
  induction d with
  | nil => simp [setField, getField]
  | cons kv rest ih =>
    obtain ⟨k0, v0⟩ := kv
    by_cases hk : k0 = k
    · simp [setField, getField, hk]
    · simp [setField, getField, hk, ih]

/-- Writing one field leaves other fields unchanged. -/
theorem getField_setField_ne (d : Doc) (k k2 : String) (v : DVal) (hne : k2 ≠ k) :
    getField (setField d k v) k2 = getField d k2 := by
  induction d with
  | nil =>
    have h2 : ¬k = k2 := fun h => hne h.symm
    simp [setField, getField, h2]
  | cons kv rest ih =>
    obtain ⟨k0, v0⟩ := kv
    by_cases hk : k0 = k
    · subst hk
      have h2 : ¬k0 = k2 := Ne.symm hne
      simp [setField, getField, h2]
    · by_cases hk2 : k0 = k2
      · subst hk2
        simp [setField, getField, hk]
      · simp [setField, getField, hk, hk2, ih]

/-- Pushing onto a cell does not change the number of cells. -/
theorem length_heapPush (h : Heap) (id : Nat) (v : DVal) :
    (heapPush h id v).length = h.length := by
  induction h generalizing id with
  | nil => rfl
  | cons c rest ih =>
    cases id with
    | zero => simp [heapPush]
    | succ n => simp [heapPush, ih]

/-- Pushing appends to the addressed cell. -/
theorem heapGet_heapPush_self (h : Heap) (id : Nat) (v : DVal) (hlt : id < h.length) :
    heapGet (heapPush h id v) id = heapGet h id ++ [v] := by
  induction h generalizing id with
  | nil => simp at hlt
  | cons c rest ih =>
    cases id with
    | zero => simp [heapPush, heapGet]
    | succ n =>
      simp only [heapPush, heapGet, List.getD_cons_succ]
      exact ih n (by simpa using hlt)

/-- Cells inside the heap are unchanged by appending fresh cells. -/
theorem heapGet_append (h : Heap) (ext : Heap) (id : Nat) (hlt : id < h.length) :
    heapGet (h ++ ext) id = heapGet h id := by
  induction h generalizing id with
  | nil => simp at hlt
  | cons c rest ih =>
    cases id with
    | zero => simp [heapGet]
    | succ n =>
      simp only [heapGet, List.cons_append, List.getD_cons_succ]
      exact ih n (by simpa using hlt)

/-- Observing a well-formed document is unaffected by appending fresh
cells to the heap. -/
theorem derefDoc_append (h : Heap) (ext : Heap) (d : Doc) (hwf : docWF h d = true) :
    derefDoc (h ++ ext) d = derefDoc h d := by
  unfold derefDoc
  apply List.map_congr_left
  intro kv hkv
  have hk := (List.all_eq_true.mp hwf) kv hkv
  cases hv : kv.2 with
  | arrRef id =>
    rw [hv] at hk
    simp only [decide_eq_true_eq] at hk
    simp [derefValue, heapGet_append h ext id hk]
  | num n => simp [derefValue]
  | str s => simp [derefValue]
  | bool b => simp [derefValue]
  | null => simp [derefValue]

/-- The removal loop only ever appends fresh cells to the heap. -/
theorem foldl_pullStep_ext (ps : Payload) :
    ∀ hd : Heap × Doc, ∃ ext, (ps.foldl pullStep hd).1 = hd.1 ++ ext := by
  induction ps with
  | nil => intro hd; exact ⟨[], by simp⟩
  | cons kv rest ih =>
    intro hd
    obtain ⟨ext, hext⟩ := ih (pullStep hd kv)
    have hstep : ∃ ext0, (pullStep hd kv).1 = hd.1 ++ ext0 := by
      unfold pullStep
      cases hg : getField hd.2 kv.1 with
      | none => exact ⟨[], by simp⟩
      | some w =>
        cases w with
        | arrRef id => exact ⟨_, rfl⟩
        | num n => exact ⟨[], by simp⟩
        | str s => exact ⟨[], by simp⟩
        | bool b => exact ⟨[], by simp⟩
        | null => exact ⟨[], by simp⟩
    obtain ⟨ext0, hext0⟩ := hstep
    refine ⟨ext0 ++ ext, ?_⟩
    rw [List.foldl_cons] at *
    rw [hext, hext0, List.append_assoc]

/-- (x || 0) + n on a numeric field is plain integer addition. -/
theorem jsAdd_or0_num (h : Heap) (x n : Int) :
    jsAdd h (jsOr0 (some (.num x))) (.num n) = .num (x + n) := by
  by_cases hx : x = 0
  · subst hx; simp [jsOr0, jsFalsy, jsAdd, jsToNum]
  · simp [jsOr0, jsFalsy, hx, jsAdd, jsToNum]

/-- A step contributing nothing is dropped from the sequenced result. -/
theorem seqAppend_nil_left (x : Except Unit (List String × List FV)) :
    seqAppend (.ok ([], [])) x = x := by
  cases x with
  | error e => rfl
  | ok p => obtain ⟨cs, ps⟩ := p; simp [seqAppend]

/-- Claim C1: at the filter with key the disjunction combinator and two
nested single-field filters, the compiled clause carries two positional
placeholders while the returned parameter list is empty — the source
destructures only the clause of each recursive compilation and discards
its parameters, so the operand values 1 and 2 are never appended.  This
exhibits the violation of the claim that the parameter list contains
exactly the operand values for the emitted placeholders. -/
theorem c1_or_params_dropped :
    buildWhereClause [("$or", FV.list [FV.map [("a", FV.num 1)], FV.map [("b", FV.num 2)]])]
        "mysql" =
      .ok ("((" ++ parseKey "mysql" "a" ++ " = ?) OR (" ++ parseKey "mysql" "b" ++ " = ?))",
        []) ∧
    countPlaceholders
        ("((" ++ parseKey "mysql" "a" ++ " = ?) OR (" ++ parseKey "mysql" "b" ++ " = ?))") =
      2 := by
  constructor
  · simp only [buildWhereClause, buildEntries, entryStep, parseCondition, parseOps, opStep,
      seqAppend, exMap, condWrap, joinWrap, notWrap, sequenceE, toEntries, List.attach,
      List.attachWith, List.map, String.reduceEq, reduceIte]
    rfl
  · decide

/-- Claim C2, counterexample: applying an append to a document whose
field already holds an array mutates that array in place through the
shared reference created by the shallow copy, so the input document
observed after the update differs from the input document observed
before it — the update application is not a pure transform of its
input. -/
theorem c2_push_mutates_shared_array :
    derefDoc (applyUpdateOperators [[]] [("b", DVal.arrRef 0)]
        [("$push", [("b", DVal.num 1)])]).1 [("b", DVal.arrRef 0)] ≠
      derefDoc [[]] [("b", DVal.arrRef 0)] := by
  decide

/-- The update compiler only ever appends fresh array cells to the heap
when the update specification has no append operator (replacement and
increment do not touch the heap, and removal allocates a fresh filtered
copy). -/
theorem applyUpdateOperators_heap_no_push (h : Heap) (d : Doc) (u : RawUpdate)
    (hpush : getOp u "$push" = none) :
    ∃ ext, (applyUpdateOperators h d u).1 = h ++ ext := by
  unfold applyUpdateOperators
  rw [hpush]
  cases hpull : getOp u "$pull" with
  | none => exact ⟨[], by simp⟩
  | some ps =>
    simp only [applyPull]
    exact foldl_pullStep_ext ps _

/-- Claim C2, amended: the update application produces a new document
and, for every update specification with no append operator, leaves the
input document (including every array value it holds) unchanged; an
append targeting a field that already holds an array, however, mutates
that shared array in place, making the appended element visible through
the input document. -/
theorem c2_pure_without_append (h : Heap) (d : Doc) (u : RawUpdate)
    (hpush : getOp u "$push" = none) (hwf : docWF h d = true) :
    derefDoc (applyUpdateOperators h d u).1 d = derefDoc h d := by
  obtain ⟨ext, hext⟩ := applyUpdateOperators_heap_no_push h d u hpush
  rw [hext, derefDoc_append h ext d hwf]

/-- Witness for C2 at a concrete heap, document and push-free update. -/
theorem c2_pure_without_append_witness :
    getOp [("$set", [("a", DVal.num 5)]), ("$pull", [("c", DVal.num 1)])] "$push" = none ∧
    docWF [[DVal.num 1]] [("a", DVal.num 2), ("c", DVal.arrRef 0)] = true ∧
    derefDoc (applyUpdateOperators [[DVal.num 1]] [("a", DVal.num 2), ("c", DVal.arrRef 0)]
        [("$set", [("a", DVal.num 5)]), ("$pull", [("c", DVal.num 1)])]).1
        [("a", DVal.num 2), ("c", DVal.arrRef 0)] =
      derefDoc [[DVal.num 1]] [("a", DVal.num 2), ("c", DVal.arrRef 0)] :=
  ⟨by decide, by decide, c2_pure_without_append _ _ _ (by decide) (by decide)⟩

/-- Claim C3: when the caller-supplied work function raises, the
wrapper rolls the session back and then releases it, re-raising the
original failure unchanged after cleanup; on both exit paths the
session is released exactly once.  Stated over the event-logging driver
instance: the final event trace is the work trace followed by
commit-release or rollback-release, and contains exactly one release. -/
theorem c3_rollback_then_release {E A : Type}
    (fn : Unit → List TxEvent → Except E A × List TxEvent)
    (out : Except E A) (tr : List TxEvent)
    (hfn : fn () [TxEvent.started] = (out, TxEvent.started :: tr))
    (hrel : TxEvent.released ∉ tr) :
    withTransaction logDriver fn [] = (out, TxEvent.started :: (tr ++ txTail out)) ∧
    (withTransaction logDriver fn []).2.count TxEvent.released = 1 := by
  have h0 : tr.count TxEvent.released = 0 := List.count_eq_zero.mpr hrel
  have hw : withTransaction logDriver fn [] =
      (out, TxEvent.started :: (tr ++ txTail out)) := by
    simp only [withTransaction, logDriver, List.nil_append]
    rw [hfn]
    cases out with
    | ok a => simp [txTail]
    | error e2 => simp [txTail]
  refine ⟨hw, ?_⟩
  rw [hw]
  cases out <;> simp [txTail, List.count_append, List.count_cons, h0]

/-- Witness for C3 at a concrete failing work function. -/
theorem c3_witness :
    (fun (_ : Unit) (s : List TxEvent) => ((.error "boom" : Except String Unit), s)) ()
        [TxEvent.started] = ((.error "boom" : Except String Unit), TxEvent.started :: []) ∧
    TxEvent.released ∉ ([] : List TxEvent) ∧
    withTransaction logDriver
        (fun (_ : Unit) (s : List TxEvent) => ((.error "boom" : Except String Unit), s)) [] =
      ((.error "boom" : Except String Unit),
        TxEvent.started :: ([] ++ [TxEvent.rolledBack, TxEvent.released])) ∧
    (withTransaction logDriver
        (fun (_ : Unit) (s : List TxEvent) => ((.error "boom" : Except String Unit), s))
        []).2.count TxEvent.released = 1 := by
  have h := c3_rollback_then_release
      (fun (_ : Unit) (s : List TxEvent) => ((.error "boom" : Except String Unit), s))
      (.error "boom") [] rfl (by simp)
  exact ⟨rfl, by simp, h.1, h.2⟩

/-- Claim C4: whenever the cursor-paginated find returns a result, its
nextCursor equals the cursor-field value of the last returned document
exactly when the number of returned documents equals the page size
limit, and is undefined on a partial or empty page. -/
theorem c4_next_cursor_full_page (e : Engine) (collection : String)
    (filter : List (String × FV)) (opts : CursorOptions)
    (r : List Doc × Option DVal × Option DVal × List Query)
    (hr : findWithCursorOp e collection filter opts = .ok r) :
    r.2.1 = (if (r.1.length : Int) = opts.limit.getD 10
             then r.1.getLast?.bind (fun d => getField d (opts.cursorField.getD "id"))
             else none) := by
  simp only [findWithCursorOp] at hr
  split at hr
  · exact absurd hr (by simp)
  · split at hr
    · split at hr
      · exact absurd hr (by simp)
      · injection hr with h2
        subst h2
        rfl
    · injection hr with h2
      subst h2
      rfl

/-- Witness for C4 at a concrete engine and empty page. -/
theorem c4_witness :
    findWithCursorOp ⟨"mysql", [], fun _ _ => []⟩ "t" []
        ⟨none, none, none, none, none, none, none⟩ = .ok ([], none, none, []) ∧
    (none : Option DVal) =
      (if ((([] : List Doc).length : Int) =
            ((⟨none, none, none, none, none, none, none⟩ : CursorOptions).limit.getD 10))
       then ([] : List Doc).getLast?.bind (fun d =>
         getField d
           ((⟨none, none, none, none, none, none, none⟩ : CursorOptions).cursorField.getD "id"))
       else none) := by
  have h1 : findWithCursorOp ⟨"mysql", [], fun _ _ => []⟩ "t" []
      ⟨none, none, none, none, none, none, none⟩ = .ok ([], none, none, []) := by
    simp [findWithCursorOp, findOp]
  exact ⟨h1, c4_next_cursor_full_page _ _ _ _ _ h1⟩

/-- Claim C5: the four mutation operators are read from the update
specification by name and applied in the fixed source order
(replacement, increment, append, removal), so any two specifications
with the same operator-to-operand bindings — whatever the order of
their keys and whatever unrecognized keys they carry — produce equal
results. -/
theorem c5_fixed_operator_order (h : Heap) (d : Doc) (u1 u2 : RawUpdate)
    (hsame : ∀ name, getOp u1 name = getOp u2 name) :
    applyUpdateOperators h d u1 = applyUpdateOperators h d u2 := by
  unfold applyUpdateOperators
  rw [hsame "$set", hsame "$inc", hsame "$push", hsame "$pull"]

/-- Witness for C5 at two concrete specifications with swapped keys. -/
theorem c5_witness :
    (∀ name, getOp [("$push", [("b", DVal.num 1)]), ("$set", [("a", DVal.num 2)])] name =
        getOp [("$set", [("a", DVal.num 2)]), ("$push", [("b", DVal.num 1)])] name) ∧
    applyUpdateOperators [[]] [("a", DVal.num 0)]
        [("$push", [("b", DVal.num 1)]), ("$set", [("a", DVal.num 2)])] =
      applyUpdateOperators [[]] [("a", DVal.num 0)]
        [("$set", [("a", DVal.num 2)]), ("$push", [("b", DVal.num 1)])] := by
  have hs : ∀ name,
      getOp [("$push", [("b", DVal.num 1)]), ("$set", [("a", DVal.num 2)])] name =
        getOp [("$set", [("a", DVal.num 2)]), ("$push", [("b", DVal.num 1)])] name := by
    intro name
    by_cases h1 : ("$push" : String) = name
    · subst h1; decide
    · by_cases h2 : ("$set" : String) = name
      · subst h2; decide
      · simp [getOp, h1, h2]
  exact ⟨hs, c5_fixed_operator_order [[]] [("a", DVal.num 0)] _ _ hs⟩

/-- One application of the increment-and-append specification: the
numeric field gains n and the shared array cell gains one element. -/
theorem applyUpdateOperators_incPush (h : Heap) (d : Doc) (a b : String) (x n : Int)
    (id : Nat) (v : DVal) (hab : a ≠ b)
    (ha : getField d a = some (.num x)) (hb : getField d b = some (.arrRef id)) :
    applyUpdateOperators h d (incPushUpdate a n b v) =
      (heapPush h id v, setField d a (.num (x + n))) := by
  have hset : getOp (incPushUpdate a n b v) "$set" = none := by
    simp [incPushUpdate, getOp]
  have hinc : getOp (incPushUpdate a n b v) "$inc" = some [(a, DVal.num n)] := by
    simp [incPushUpdate, getOp]
  have hpush : getOp (incPushUpdate a n b v) "$push" = some [(b, v)] := by
    simp [incPushUpdate, getOp]
  have hpull : getOp (incPushUpdate a n b v) "$pull" = none := by
    simp [incPushUpdate, getOp]
  have hd1 : applyInc h d [(a, DVal.num n)] = setField d a (.num (x + n)) := by
    simp [applyInc, ha, jsAdd_or0_num]
  have hgb : getField (setField d a (.num (x + n))) b = some (.arrRef id) := by
    rw [getField_setField_ne d a b _ (Ne.symm hab), hb]
  simp only [applyUpdateOperators, hset, hinc, hpush, hpull, hd1]
  simp [applyPush, hgb]

/-- Claim C6: applying the combined increment-and-append specification
twice in sequence to a document whose incremented field holds x and
whose appended field holds an array yields an incremented field equal
to x plus twice the operand and an appended array with exactly two more
elements than at the start — update application is not idempotent. -/
theorem c6_inc_push_not_idempotent (h : Heap) (d : Doc) (a b : String) (x n : Int)
    (id : Nat) (v : DVal) (hab : a ≠ b)
    (ha : getField d a = some (.num x)) (hb : getField d b = some (.arrRef id))
    (hid : id < h.length) :
    getField (applyUpdateOperators (applyUpdateOperators h d (incPushUpdate a n b v)).1
        (applyUpdateOperators h d (incPushUpdate a n b v)).2 (incPushUpdate a n b v)).2 a =
      some (.num (x + 2 * n)) ∧
    (heapGet (applyUpdateOperators (applyUpdateOperators h d (incPushUpdate a n b v)).1
        (applyUpdateOperators h d (incPushUpdate a n b v)).2 (incPushUpdate a n b v)).1
        id).length =
      (heapGet h id).length + 2 := by
  have h1 := applyUpdateOperators_incPush h d a b x n id v hab ha hb
  have ha2 : getField (setField d a (.num (x + n))) a = some (.num (x + n)) :=
    getField_setField_self d a _
  have hb2 : getField (setField d a (.num (x + n))) b = some (.arrRef id) := by
    rw [getField_setField_ne d a b _ (Ne.symm hab), hb]
  have h2 := applyUpdateOperators_incPush (heapPush h id v) (setField d a (.num (x + n)))
      a b (x + n) n id v hab ha2 hb2
  rw [h1, h2]
  constructor
  · have hx : x + n + n = x + 2 * n := by ring
    rw [getField_setField_self, hx]
  · have hid2 : id < (heapPush h id v).length := by rw [length_heapPush]; exact hid
    rw [heapGet_heapPush_self _ _ _ hid2, heapGet_heapPush_self _ _ _ hid]
    simp

/-- Witness for C6 at a concrete document and heap. -/
theorem c6_witness :
    ("a" : String) ≠ "b" ∧
    getField [("a", DVal.num 5), ("b", DVal.arrRef 0)] "a" = some (.num 5) ∧
    getField [("a", DVal.num 5), ("b", DVal.arrRef 0)] "b" = some (.arrRef 0) ∧
    0 < ([[DVal.num 9]] : Heap).length ∧
    (getField (applyUpdateOperators (applyUpdateOperators [[DVal.num 9]]
        [("a", DVal.num 5), ("b", DVal.arrRef 0)] (incPushUpdate "a" 3 "b" (DVal.num 7))).1
        (applyUpdateOperators [[DVal.num 9]] [("a", DVal.num 5), ("b", DVal.arrRef 0)]
          (incPushUpdate "a" 3 "b" (DVal.num 7))).2 (incPushUpdate "a" 3 "b" (DVal.num 7))).2
        "a" = some (.num (5 + 2 * 3)) ∧
     (heapGet (applyUpdateOperators (applyUpdateOperators [[DVal.num 9]]
        [("a", DVal.num 5), ("b", DVal.arrRef 0)] (incPushUpdate "a" 3 "b" (DVal.num 7))).1
        (applyUpdateOperators [[DVal.num 9]] [("a", DVal.num 5), ("b", DVal.arrRef 0)]
          (incPushUpdate "a" 3 "b" (DVal.num 7))).2 (incPushUpdate "a" 3 "b" (DVal.num 7))).1
        0).length = (heapGet [[DVal.num 9]] 0).length + 2) :=
  ⟨by decide, by decide, by decide, by decide,
    c6_inc_push_not_idempotent [[DVal.num 9]] [("a", DVal.num 5), ("b", DVal.arrRef 0)]
      "a" "b" 5 3 0 (DVal.num 7) (by decide) (by decide) (by decide) (by decide)⟩

/-- The unwind accumulator loop, over any starting accumulator. -/
theorem foldl_unwindStep (h : Heap) (path : String) (result : List Doc) :
    ∀ acc, result.foldl (unwindStep h path) acc =
      acc ++ result.flatMap (fun d =>
        match getField d path with
        | some (.arrRef id) => (heapGet h id).map (fun v => setField d path v)
        | _ => [d]) := by
  induction result with
  | nil => intro acc; simp
  | cons d rest ih =>
    intro acc
    rw [List.foldl_cons, ih, List.flatMap_cons]
    unfold unwindStep
    cases hg : getField d path with
    | none => simp
    | some w =>
      cases w with
      | arrRef id => simp
      | num n => simp
      | str s => simp
      | bool b => simp
      | null => simp

/-- Claim C7: one unwind stage is a flat-map over the decoded result
sequence: a document whose value at the path is an array is replaced by
one output document per element, in element order, with the field set
to that element; a document where the field is absent or not an array
passes through unchanged. -/
theorem c7_unwind_is_flatmap (h : Heap) (path : String) (result : List Doc) :
    unwindStage h path result =
      result.flatMap (fun d =>
        match getField d path with
        | some (.arrRef id) => (heapGet h id).map (fun v => setField d path v)
        | _ => [d]) := by
  rw [unwindStage, foldl_unwindStep]
  simp

/-- Claim C8, counterexample: compiling the filter whose set-membership
operand is the number 5 throws (map is called on a non-array), so the
predicate compiler does not succeed on every filter. -/
theorem c8_in_nonarray_throws :
    buildWhereClause [("a", FV.map [("$in", FV.num 5)])] "mysql" = .error () := by
  simp only [buildWhereClause, buildEntries, entryStep, parseCondition, parseOps, opStep,
    seqAppend, exMap, condWrap, String.reduceEq, reduceIte]

/-- An operator outside the recognized set contributes nothing. -/
theorem opStep_unknown (dialect key : String) (op : String) (w : FV)
    (hop : op ∉ recognizedOps) :
    opStep dialect key op w = .ok ([], []) := by
  simp only [recognizedOps, List.mem_cons, List.not_mem_nil, or_false, not_or] at hop
  obtain ⟨h1, h2, h3, h4, h5, h6, h7, h8, h9⟩ := hop
  rw [opStep.eq_def]
  simp [h1, h2, h3, h4, h5, h6, h7, h8, h9]

/-- Deleting an unrecognized operator from an operator map does not
change the compiled operator sequence. -/
theorem parseOps_skip_unknown (dialect key : String) (pre post : List (String × FV))
    (op : String) (w : FV) (hop : op ∉ recognizedOps) :
    parseOps dialect key (pre ++ (op, w) :: post) = parseOps dialect key (pre ++ post) := by
  induction pre with
  | nil =>
    simp only [List.nil_append]
    rw [parseOps, opStep_unknown dialect key op w hop, seqAppend_nil_left]
  | cons p pre2 ih =>
    obtain ⟨p1, p2⟩ := p
    simp only [List.cons_append]
    rw [parseOps, parseOps, ih]

/-- Deleting an unrecognized operator from a field entry of the filter
does not change the compiled entry sequence. -/
theorem buildEntries_skip_unknown (dialect : String) (fpre fpost : List (String × FV))
    (key : String) (pre post : List (String × FV)) (op : String) (w : FV)
    (hop : op ∉ recognizedOps) (hkey : key ≠ "$not") :
    buildEntries dialect (fpre ++ (key, FV.map (pre ++ (op, w) :: post)) :: fpost) =
      buildEntries dialect (fpre ++ (key, FV.map (pre ++ post)) :: fpost) := by
  induction fpre with
  | nil =>
    simp only [List.nil_append]
    have he : entryStep dialect key (FV.map (pre ++ (op, w) :: post)) =
        entryStep dialect key (FV.map (pre ++ post)) := by
      simp only [entryStep]
      rw [if_neg hkey, if_neg hkey]
      simp only [parseCondition]
      rw [parseOps_skip_unknown dialect key pre post op w hop]
    rw [buildEntries, buildEntries, he]
  | cons fp fpre2 ih =>
    obtain ⟨k0, v0⟩ := fp
    simp only [List.cons_append]
    rw [buildEntries, buildEntries, ih]

/-- Claim C8, amended: the predicate compiler can throw (a
set-membership operator with a non-array operand does), but an
unrecognized operator inside a field entry of a filter is silently
skipped: compiling the filter with that operator present yields exactly
the same clause and parameter list as compiling the filter with it
removed, whatever surrounds it. -/
theorem c8_unknown_operator_skipped (dialect : String) (fpre fpost : List (String × FV))
    (key : String) (pre post : List (String × FV)) (op : String) (w : FV)
    (hop : op ∉ recognizedOps) (hkey : key ≠ "$not") :
    buildWhereClause (fpre ++ (key, FV.map (pre ++ (op, w) :: post)) :: fpost) dialect =
      buildWhereClause (fpre ++ (key, FV.map (pre ++ post)) :: fpost) dialect := by
  unfold buildWhereClause
  rw [buildEntries_skip_unknown dialect fpre fpost key pre post op w hop hkey]

/-- Witness for C8 at a concrete filter with an unrecognized operator. -/
theorem c8_witness :
    ("$regex" : String) ∉ recognizedOps ∧ ("a" : String) ≠ "$not" ∧
    buildWhereClause
        ([] ++ ("a", FV.map ([("$gt", FV.num 1)] ++ ("$regex", FV.str "x") :: [])) :: [])
        "mysql" =
      buildWhereClause ([] ++ ("a", FV.map ([("$gt", FV.num 1)] ++ [])) :: []) "mysql" :=
  ⟨by decide, by decide,
    c8_unknown_operator_skipped "mysql" [] [] "a" [("$gt", FV.num 1)] [] "$regex"
      (FV.str "x") (by decide) (by decide)⟩

/-- Claim C9: the empty filter compiles to an empty clause and an empty
parameter list, and find on the empty filter (over an existing table)
issues the WHERE-free SELECT — every row of the collection is selected
by the statement. -/
theorem c9_empty_filter_no_where (dialect : String) (e : Engine) (collection : String)
    (opts : FindOptions) (hmem : collection ∈ e.tables) :
    buildWhereClause [] dialect = .ok ("", []) ∧
    findOp e collection [] opts =
      .ok (e.exec (findSqlNoWhere collection opts) [],
        [(findSqlNoWhere collection opts, [])]) := by
  have hb : buildWhereClause [] dialect = .ok ("", []) := by
    simp [buildWhereClause, buildEntries, String.intercalate]
  refine ⟨hb, ?_⟩
  have hb2 : buildWhereClause [] e.dialect = .ok ("", []) := by
    simp [buildWhereClause, buildEntries, String.intercalate]
  have hs : findSql collection "" opts = findSqlNoWhere collection opts := by
    simp [findSql, findSqlNoWhere]
  simp only [findOp, if_pos hmem, hb2, hs]

/-- Witness for C9 at a concrete engine with one table. -/
theorem c9_witness :
    ("t" : String) ∈ (Engine.mk "mysql" ["t"] (fun _ _ => [])).tables ∧
    (buildWhereClause [] "mysql" = .ok ("", []) ∧
     findOp ⟨"mysql", ["t"], fun _ _ => []⟩ "t" [] ⟨none, none, none⟩ =
       .ok ([], [(findSqlNoWhere "t" ⟨none, none, none⟩, [])])) :=
  ⟨by simp, c9_empty_filter_no_where "mysql" ⟨"mysql", ["t"], fun _ _ => []⟩ "t"
    ⟨none, none, none⟩ (by simp)⟩

/-- Claim C10: on a collection whose backing table does not exist, find
returns the empty list, countDocuments returns zero, updateMany and
deleteMany report zero matched, modified and deleted rows, and none of
them issues any row-level statement beyond the table-existence check. -/
theorem c10_missing_table (e : Engine) (h : Heap) (collection : String)
    (filter : List (String × FV)) (fopts : FindOptions) (u : RawUpdate)
    (uopts : UpdateOptions) (lim : Option Int)
    (habs : collection ∉ e.tables) :
    findOp e collection filter fopts = .ok ([], []) ∧
    countOp e collection filter = .ok (.num 0, []) ∧
    updateManyOp e h collection filter u uopts = .ok (⟨true, 0, 0⟩, h, []) ∧
    deleteManyOp e h collection filter lim = .ok (⟨true, 0⟩, []) := by
  refine ⟨?_, ?_, ?_, ?_⟩ <;>
    simp [findOp, countOp, updateManyOp, deleteManyOp, habs]

/-- Witness for C10 at a concrete engine with no tables. -/
theorem c10_witness :
    ("users" : String) ∉ (Engine.mk "mysql" [] (fun _ _ => [])).tables ∧
    (findOp ⟨"mysql", [], fun _ _ => []⟩ "users" [] ⟨none, none, none⟩ = .ok ([], []) ∧
     countOp ⟨"mysql", [], fun _ _ => []⟩ "users" [] = .ok (.num 0, []) ∧
     updateManyOp ⟨"mysql", [], fun _ _ => []⟩ [] "users" [] [] ⟨none, none⟩ =
       .ok (⟨true, 0, 0⟩, [], []) ∧
     deleteManyOp ⟨"mysql", [], fun _ _ => []⟩ [] "users" [] none = .ok (⟨true, 0⟩, [])) :=
  ⟨by simp, c10_missing_table _ _ _ _ _ _ _ _ (by simp)⟩
